import Mathlib

/-!
Verification development for the `0x00-personal_data` module
(`filtered_logger.py`, `encrypt_password.py`).

The Python code is shallowly embedded: strings are `String`/`List Char`,
the regex substitution performed by `filter_datum` is embedded as a
left-to-right, non-overlapping scan, and the stateful parts (the
`logging` registry, the database/`main` control flow) are embedded as
explicit state passing.
-/

/-! ## Redaction engine: `filter_datum`

Source (`filtered_logger.py`):

    pattern = r'(' + '|'.join([re.escape(field) for field in fields])
              + r')=[^' + re.escape(separator) + r';]+'
    return re.sub(pattern, lambda m: f'{m.group(1)}={redaction}', message)

The pattern is an alternation of the literal field names (in list
order), followed by a literal `=`, followed by a nonempty maximal run
of characters that are neither the separator nor `;`.  `re.sub` scans
left to right, takes the leftmost match (alternatives tried in list
order), replaces it by `group(1) ++ "=" ++ redaction`, and resumes
after the match.  The separator is embedded as a single `Char`, the
case exercised by the specification (`Separator: the single character
delimiting key=value segments`).  When `fields` is the empty list,
`'|'.join` produces the empty alternation `()`, which matches the
empty string, so the empty field list behaves like the list `[""]`.
-/

/-- Character class `[^<sep>;]` of the value run in the pattern. -/
def isRunChar (sep c : Char) : Bool :=
  !(decide (c = sep)) && !(decide (c = ';'))

/-- Attempt to match one alternative `field ++ "=" ++ run` at the head of
`s`, as the compiled regex does: the field name matches literally
(`re.escape`), then a literal `=`, then a nonempty greedy run of
characters in `[^<sep>;]`.  Returns the run and the rest of the input. -/
def tryField (sep : Char) : List Char → List Char → Option (List Char × List Char)
  | [], [] => none
  | [], c :: t =>
    if c = '=' then
      if (t.takeWhile (isRunChar sep)).isEmpty then none
      else some (t.takeWhile (isRunChar sep), t.dropWhile (isRunChar sep))
    else none
  | _ :: _, [] => none
  | a :: f, c :: s => if a = c then tryField sep f s else none

/-- Attempt the alternation at the head of `s`: alternatives are tried in
field-list order, exactly as in the joined pattern. Returns the matched
field (the content of `group(1)`), the matched run, and the rest. -/
def matchAt (sep : Char) (fields : List (List Char)) (s : List Char) :
    Option (List Char × List Char × List Char) :=
  match fields with
  | [] => none
  | f :: fs =>
    match tryField sep f s with
    | some (run, rest) => some (f, run, rest)
    | none => matchAt sep fs s

theorem dropWhile_length_le (p : Char → Bool) :
    ∀ t : List Char, (t.dropWhile p).length ≤ t.length := by
  intro t
  induction t with
  | nil => simp
  | cons c cs ih =>
    by_cases h : p c
    · simpa [List.dropWhile, h] using Nat.le_succ_of_le ih
    · simp [List.dropWhile, h]

theorem tryField_rest_length (sep : Char) :
    ∀ (f s run rest : List Char), tryField sep f s = some (run, rest) →
      rest.length < s.length := by
  intro f
  induction f with
  | nil =>
    intro s run rest h
    cases s with
    | nil => simp [tryField] at h
    | cons c t =>
      by_cases hc : c = '='
      · simp only [tryField, hc, if_pos rfl] at h
        by_cases he : (t.takeWhile (isRunChar sep)).isEmpty
        · simp [he] at h
        · simp only [he, if_neg, Bool.false_eq_true, not_false_iff, if_false] at h
          have hrest : rest = t.dropWhile (isRunChar sep) := by
            cases h; rfl
          subst hrest
          have hle : (t.dropWhile (isRunChar sep)).length ≤ t.length :=
            dropWhile_length_le _ _
          simpa [List.length_cons] using Nat.lt_succ_of_le hle
      · simp [tryField, hc] at h
  | cons a f ih =>
    intro s run rest h
    cases s with
    | nil => simp [tryField] at h
    | cons c t =>
      by_cases hac : a = c
      · simp only [tryField, hac, if_pos rfl] at h
        have := ih t run rest h
        simpa [List.length_cons] using Nat.lt_succ_of_lt this
      · simp [tryField, hac] at h

theorem matchAt_rest_length (sep : Char) :
    ∀ (fields : List (List Char)) (s : List Char) (f run rest : List Char),
      matchAt sep fields s = some (f, run, rest) → rest.length < s.length := by
  intro fields
  induction fields with
  | nil => intro s f run rest h; simp [matchAt] at h
  | cons g gs ih =>
    intro s f run rest h
    simp only [matchAt] at h
    cases htry : tryField sep g s with
    | some p =>
      rw [htry] at h
      cases h
      exact tryField_rest_length sep g s p.1 p.2 htry
    | none =>
      rw [htry] at h
      exact ih s f run rest h

/-- One pass of `re.sub` over the remaining input: replace the leftmost
match by `group(1) ++ "=" ++ redaction` and resume after it, otherwise
emit one character and continue.  The extra `Nat` argument is fuel that
bounds the number of scan steps; every successful match consumes at
least one character, so fuel equal to the input length (as supplied by
`filterAux`) is never exhausted. -/
def filterScan (sep : Char) (fields : List (List Char)) (red : List Char) :
    Nat → List Char → List Char
  | _, [] => []
  | 0, _ :: _ => []
  | n + 1, c :: cs =>
    match matchAt sep fields (c :: cs) with
    | some (f, _, rest) => f ++ '=' :: (red ++ filterScan sep fields red n rest)
    | none => c :: filterScan sep fields red n cs

/-- The full `re.sub` pass, with enough fuel for the whole input. -/
def filterAux (sep : Char) (fields : List (List Char)) (red : List Char)
    (s : List Char) : List Char :=
  filterScan sep fields red s.length s

theorem filterScan_congr (sep : Char) (fields : List (List Char)) (red : List Char) :
    ∀ (n m : Nat) (s : List Char), s.length ≤ n → s.length ≤ m →
      filterScan sep fields red n s = filterScan sep fields red m s := by
  intro n
  induction n with
  | zero =>
    intro m s hn _
    have : s = [] := List.eq_nil_of_length_eq_zero (Nat.le_zero.mp hn)
    subst this
    cases m <;> rfl
  | succ n ih =>
    intro m s hn hm
    cases s with
    | nil => cases m <;> rfl
    | cons c cs =>
      cases m with
      | zero => exact absurd hm (by simp)
      | succ m' =>
        simp only [filterScan]
        cases hmat : matchAt sep fields (c :: cs) with
        | some p =>
          obtain ⟨f, run, rest⟩ := p
          have hlt : rest.length < (c :: cs).length :=
            matchAt_rest_length sep fields (c :: cs) f run rest hmat
          have h1 : rest.length ≤ n := by
            simpa [List.length_cons] using Nat.lt_succ_iff.mp (Nat.lt_of_lt_of_le hlt hn)
          have h2 : rest.length ≤ m' := by
            simpa [List.length_cons] using Nat.lt_succ_iff.mp (Nat.lt_of_lt_of_le hlt hm)
          show f ++ '=' :: (red ++ filterScan sep fields red n rest) =
            f ++ '=' :: (red ++ filterScan sep fields red m' rest)
          rw [ih m' rest h1 h2]
        | none =>
          have h1 : cs.length ≤ n := by
            simpa [List.length_cons] using hn
          have h2 : cs.length ≤ m' := by
            simpa [List.length_cons] using hm
          show c :: filterScan sep fields red n cs = c :: filterScan sep fields red m' cs
          rw [ih m' cs h1 h2]

/-- Embedding of `filter_datum(fields, redaction, message, separator)`.
An empty `fields` list yields the empty alternation `()`, which behaves
as the single empty field name. -/
def filter_datum (fields : List String) (redaction : String) (message : String)
    (separator : Char) : String :=
  let effF : List String := if fields.isEmpty then [""] else fields
  String.mk (filterAux separator (effF.map String.data) redaction.data message.data)

/-! ## Structured messages

The specification's Message grammar (section 3): a message is a sequence
of `key=value` segments, each terminated by the separator; keys, values
and field names do not contain the separator, the terminator `;`, or
the pair delimiter `=`. -/

/-- A character that may appear in a key, a value or a field name. -/
def goodChar (sep c : Char) : Bool :=
  !(decide (c = sep)) && !(decide (c = ';')) && !(decide (c = '='))

/-- All characters of the string are segment-safe. -/
def goodStr (sep : Char) (l : List Char) : Bool :=
  l.all (goodChar sep)

/-- Well-formed field list: nonempty, and each field name is a nonempty
segment-safe string. -/
def fieldsWF (sep : Char) (fields : List (List Char)) : Bool :=
  !fields.isEmpty && fields.all (fun f => !f.isEmpty && goodStr sep f)

/-- Well-formed key/value list: keys and values are segment-safe. -/
def kvsWF (sep : Char) (kvs : List (List Char × List Char)) : Bool :=
  kvs.all (fun kv => goodStr sep kv.1 && goodStr sep kv.2)

/-- Render a key/value list as the message `k1=v1<sep>k2=v2<sep>...`,
each segment terminated by the separator. -/
def render (sep : Char) : List (List Char × List Char) → List Char
  | [] => []
  | kv :: rest => kv.1 ++ '=' :: (kv.2 ++ sep :: render sep rest)

/-- Bool membership of a character list in a list of fields. -/
def memF (fields : List (List Char)) (k : List Char) : Bool :=
  fields.any (fun f => decide (f = k))

/-- Does some field name of `fields` occur as a suffix of the key `k`?
This is the condition under which the unanchored alternation matches
inside the segment `k=v`. -/
def hasFieldSuffix (fields : List (List Char)) : List Char → Bool
  | [] => memF fields []
  | c :: k => memF fields (c :: k) || hasFieldSuffix fields k

/-- The per-segment effect of one `re.sub` pass on a well-formed segment:
the value is replaced by the redaction string exactly when some field
name is a suffix of the key and the value is nonempty. -/
def maskKV (fields : List (List Char)) (red : List Char)
    (kv : List Char × List Char) : List Char × List Char :=
  if hasFieldSuffix fields kv.1 && !kv.2.isEmpty then (kv.1, red) else kv

/-! ### Segment-level behaviour of the matcher -/

theorem goodStr_cons {sep c : Char} {l : List Char}
    (h : goodStr sep (c :: l) = true) :
    goodChar sep c = true ∧ goodStr sep l = true := by
  simpa [goodStr, List.all_cons, Bool.and_eq_true] using h

theorem goodChar_ne {sep c : Char} (h : goodChar sep c = true) :
    c ≠ sep ∧ c ≠ ';' ∧ c ≠ '=' := by
  simp only [goodChar, Bool.and_eq_true, Bool.not_eq_true', decide_eq_false_iff_not] at h
  exact ⟨h.1.1, h.1.2, h.2⟩

theorem isRunChar_of_goodChar {sep c : Char} (h : goodChar sep c = true) :
    isRunChar sep c = true := by
  obtain ⟨h1, h2, _⟩ := goodChar_ne h
  simp [isRunChar, h1, h2]

theorem takeWhile_run_eq {sep : Char} {v : List Char}
    (hv : goodStr sep v = true) :
    ∀ w, (v ++ sep :: w).takeWhile (isRunChar sep) = v := by
  induction v with
  | nil =>
    intro w
    simp [List.takeWhile, isRunChar]
  | cons c v ih =>
    intro w
    obtain ⟨hc, hv'⟩ := goodStr_cons hv
    simp [List.takeWhile, isRunChar_of_goodChar hc, ih hv']

theorem dropWhile_run_eq {sep : Char} {v : List Char}
    (hv : goodStr sep v = true) :
    ∀ w, (v ++ sep :: w).dropWhile (isRunChar sep) = sep :: w := by
  induction v with
  | nil =>
    intro w
    simp [List.dropWhile, isRunChar]
  | cons c v ih =>
    intro w
    obtain ⟨hc, hv'⟩ := goodStr_cons hv
    simp [List.dropWhile, isRunChar_of_goodChar hc, ih hv']

/-- Inside a well-formed segment, an alternative matches starting at a key
position exactly when the field equals the whole remaining key part and
the value is nonempty; the match then consumes the whole value. -/
theorem tryField_seg (sep : Char) :
    ∀ (f kd v w : List Char), goodStr sep f = true → goodStr sep kd = true →
      goodStr sep v = true →
      tryField sep f (kd ++ '=' :: (v ++ sep :: w)) =
        if f = kd ∧ v ≠ [] then some (v, sep :: w) else none := by
  intro f
  induction f with
  | nil =>
    intro kd v w _ hkd hv
    cases kd with
    | nil =>
      cases v with
      | nil =>
        simp [tryField, List.takeWhile, isRunChar]
      | cons x v' =>
        simp only [List.nil_append, tryField, if_pos rfl]
        rw [takeWhile_run_eq hv, dropWhile_run_eq hv]
        simp
    | cons c kd' =>
      obtain ⟨hc, _⟩ := goodStr_cons hkd
      obtain ⟨_, _, hc3⟩ := goodChar_ne hc
      have step : tryField sep [] ((c :: kd') ++ '=' :: (v ++ sep :: w)) = none := by
        simp [tryField, hc3]
      rw [step]
      have h2 : ¬(([] : List Char) = c :: kd' ∧ v ≠ []) := by
        rintro ⟨h, -⟩
        exact List.noConfusion h
      rw [if_neg h2]
  | cons a f ih =>
    intro kd v w hf hkd hv
    obtain ⟨ha, hf'⟩ := goodStr_cons hf
    cases kd with
    | nil =>
      obtain ⟨_, _, ha3⟩ := goodChar_ne ha
      simp [tryField, ha3]
    | cons c kd' =>
      obtain ⟨_, hkd'⟩ := goodStr_cons hkd
      by_cases hac : a = c
      · have step : tryField sep (a :: f) ((c :: kd') ++ '=' :: (v ++ sep :: w)) =
            tryField sep f (kd' ++ '=' :: (v ++ sep :: w)) := by
          simp [tryField, hac]
        rw [step, ih kd' v w hf' hkd' hv]
        have hcond : (a :: f = c :: kd' ∧ v ≠ []) ↔ (f = kd' ∧ v ≠ []) := by
          constructor
          · rintro ⟨h, hv0⟩
            refine ⟨?_, hv0⟩
            injection h
          · rintro ⟨h, hv0⟩
            exact ⟨by rw [hac, h], hv0⟩
        by_cases hc2 : f = kd' ∧ v ≠ []
        · rw [if_pos hc2, if_pos (hcond.mpr hc2)]
        · rw [if_neg hc2, if_neg (fun h => hc2 (hcond.mp h))]
      · have step : tryField sep (a :: f) ((c :: kd') ++ '=' :: (v ++ sep :: w)) = none := by
          simp [tryField, hac]
        rw [step]
        have h2 : ¬(a :: f = c :: kd' ∧ v ≠ []) := by
          rintro ⟨h, -⟩
          exact hac (by injection h)
        rw [if_neg h2]

/-- Starting inside the value part of a well-formed segment (or at the
separator itself), no alternative matches, provided the separator is not
the pair delimiter `=`. -/
theorem tryField_val_none (sep : Char) (hsep : sep ≠ '=') :
    ∀ (f vd w : List Char), goodStr sep f = true → goodStr sep vd = true →
      tryField sep f (vd ++ sep :: w) = none := by
  intro f
  induction f with
  | nil =>
    intro vd w _ hvd
    cases vd with
    | nil => simp [tryField, hsep]
    | cons c vd' =>
      obtain ⟨hc, _⟩ := goodStr_cons hvd
      obtain ⟨_, _, hc3⟩ := goodChar_ne hc
      simp [tryField, hc3]
  | cons a f ih =>
    intro vd w hf hvd
    obtain ⟨ha, hf'⟩ := goodStr_cons hf
    cases vd with
    | nil =>
      obtain ⟨ha1, _, _⟩ := goodChar_ne ha
      simp [tryField, ha1]
    | cons c vd' =>
      obtain ⟨_, hvd'⟩ := goodStr_cons hvd
      by_cases hac : a = c
      · subst hac
        simp only [List.cons_append, tryField, if_pos rfl]
        exact ih vd' w hf' hvd'
      · simp [tryField, hac]

/-- Lift the per-alternative segment lemma to the whole alternation: at a
key position of a well-formed segment, the alternation matches exactly
when the remaining key part is one of the field names and the value is
nonempty, and the matched field is determined by the position. -/
theorem matchAt_seg (sep : Char) {fields : List (List Char)}
    (hfields : (fields.all fun f => !f.isEmpty && goodStr sep f) = true) :
    ∀ (kd v w : List Char), goodStr sep kd = true → goodStr sep v = true →
      matchAt sep fields (kd ++ '=' :: (v ++ sep :: w)) =
        if (memF fields kd && !v.isEmpty) = true then some (kd, v, sep :: w)
        else none := by
  induction fields with
  | nil =>
    intro kd v w _ _
    simp [matchAt, memF]
  | cons g gs ih =>
    intro kd v w hkd hv
    rw [List.all_cons, Bool.and_eq_true] at hfields
    obtain ⟨hg, hgs⟩ := hfields
    rw [Bool.and_eq_true] at hg
    have hggood : goodStr sep g = true := hg.2
    simp only [matchAt]
    rw [tryField_seg sep g kd v w hggood hkd hv]
    by_cases hgk : g = kd ∧ v ≠ []
    · rw [if_pos hgk]
      obtain ⟨hg1, hv1⟩ := hgk
      subst hg1
      have hcond : (memF (g :: gs) g && !v.isEmpty) = true := by
        simp [memF, List.isEmpty_iff, hv1]
      rw [if_pos hcond]
    · rw [if_neg hgk]
      rw [ih hgs kd v w hkd hv]
      by_cases hmem : (memF gs kd && !v.isEmpty) = true
      · rw [if_pos hmem]
        have : (memF (g :: gs) kd && !v.isEmpty) = true := by
          rw [Bool.and_eq_true] at hmem ⊢
          refine ⟨?_, hmem.2⟩
          simp only [memF, List.any_cons, Bool.or_eq_true]
          right
          simpa [memF] using hmem.1
        rw [if_pos this]
      · rw [if_neg hmem]
        have : ¬(memF (g :: gs) kd && !v.isEmpty) = true := by
          rw [Bool.and_eq_true] at hmem ⊢
          rintro ⟨hm, hv2⟩
          simp only [memF, List.any_cons, Bool.or_eq_true, decide_eq_true_eq] at hm
          rcases hm with hm | hm
          · have hvne : v ≠ [] := by
              simpa [List.isEmpty_iff] using hv2
            exact hgk ⟨hm, hvne⟩
          · exact hmem ⟨by simpa [memF] using hm, hv2⟩
        rw [if_neg this]

/-- No alternative of a well-formed field list matches at a position
inside the value part of a segment or at the separator. -/
theorem matchAt_val_none (sep : Char) (hsep : sep ≠ '=') {fields : List (List Char)}
    (hfields : (fields.all fun f => !f.isEmpty && goodStr sep f) = true)
    {vd : List Char} (hvd : goodStr sep vd = true) (w : List Char) :
    matchAt sep fields (vd ++ sep :: w) = none := by
  induction fields with
  | nil => simp [matchAt]
  | cons g gs ih =>
    rw [List.all_cons, Bool.and_eq_true] at hfields
    obtain ⟨hg, hgs⟩ := hfields
    rw [Bool.and_eq_true] at hg
    simp only [matchAt]
    rw [tryField_val_none sep hsep g vd w hg.2 hvd]
    exact ih hgs

theorem filterAux_nil (sep : Char) (fields : List (List Char)) (red : List Char) :
    filterAux sep fields red [] = [] :=
  rfl

theorem matchAt_nil (sep : Char) (fields : List (List Char)) :
    matchAt sep fields [] = none := by
  induction fields with
  | nil => simp [matchAt]
  | cons g gs ih =>
    simp only [matchAt]
    cases g with
    | nil => simpa [tryField] using ih
    | cons a g' => simpa [tryField] using ih

theorem filterAux_match (sep : Char) (fields : List (List Char)) (red : List Char)
    {s f run rest : List Char} (h : matchAt sep fields s = some (f, run, rest)) :
    filterAux sep fields red s = f ++ '=' :: (red ++ filterAux sep fields red rest) := by
  cases s with
  | nil =>
    rw [matchAt_nil] at h
    cases h
  | cons c cs =>
    have hlt : rest.length < (c :: cs).length :=
      matchAt_rest_length sep fields (c :: cs) f run rest h
    unfold filterAux
    simp only [List.length_cons, filterScan, h]
    rw [filterScan_congr sep fields red cs.length rest.length rest
      (Nat.lt_succ_iff.mp (by simpa [List.length_cons] using hlt)) (Nat.le_refl _)]

theorem filterAux_copy (sep : Char) (fields : List (List Char)) (red : List Char)
    {c : Char} {cs : List Char} (h : matchAt sep fields (c :: cs) = none) :
    filterAux sep fields red (c :: cs) = c :: filterAux sep fields red cs := by
  unfold filterAux
  simp only [List.length_cons, filterScan, h]

/-- Scanning the value part of a well-formed segment copies it and the
terminating separator unchanged, and continues after the separator. -/
theorem filterAux_val (sep : Char) (hsep : sep ≠ '=') {fields : List (List Char)}
    (hfields : (fields.all fun f => !f.isEmpty && goodStr sep f) = true)
    (red : List Char) :
    ∀ (v w : List Char), goodStr sep v = true →
      filterAux sep fields red (v ++ sep :: w) =
        v ++ sep :: filterAux sep fields red w := by
  intro v
  induction v with
  | nil =>
    intro w _
    have hm : matchAt sep fields (sep :: w) = none := by
      simpa using @matchAt_val_none sep hsep fields hfields [] (by simp [goodStr]) w
    simpa using filterAux_copy sep fields red hm
  | cons c v ih =>
    intro w hv
    obtain ⟨hc, hv'⟩ := goodStr_cons hv
    have hm : matchAt sep fields ((c :: v) ++ sep :: w) = none :=
      matchAt_val_none sep hsep hfields hv w
    rw [List.cons_append] at hm
    rw [List.cons_append, filterAux_copy sep fields red hm, ih w hv']
    rfl

/-- Scanning one well-formed segment `kd=v<sep>`: the value is replaced by
the redaction exactly when some field name is a suffix of the key part
and the value is nonempty; everything else is copied, and scanning
resumes at `w`. -/
theorem filterAux_seg (sep : Char) (hsep : sep ≠ '=') {fields : List (List Char)}
    (hne : (!fields.isEmpty) = true)
    (hfields : (fields.all fun f => !f.isEmpty && goodStr sep f) = true)
    (red : List Char) :
    ∀ (kd v w : List Char), goodStr sep kd = true → goodStr sep v = true →
      filterAux sep fields red (kd ++ '=' :: (v ++ sep :: w)) =
        (if (hasFieldSuffix fields kd && !v.isEmpty) = true
          then kd ++ '=' :: (red ++ sep :: filterAux sep fields red w)
          else kd ++ '=' :: (v ++ sep :: filterAux sep fields red w)) := by
  intro kd
  induction kd with
  | nil =>
    intro v w _ hv
    have hmem : memF fields [] = false := by
      rcases hfe : fields.all (fun f => !f.isEmpty && goodStr sep f) with _ | _
      · rw [hfe] at hfields; cases hfields
      · simp only [memF, List.any_eq_false, decide_eq_true_eq]
        intro f hf hcontra
        rw [List.all_eq_true] at hfields
        have := hfields f hf
        rw [Bool.and_eq_true] at this
        rw [hcontra] at this
        simp at this
    have hm : matchAt sep fields ([] ++ '=' :: (v ++ sep :: w)) = none := by
      rw [matchAt_seg sep hfields [] v w (by simp [goodStr]) hv]
      rw [hmem]
      simp
    rw [List.nil_append] at hm
    have hsuf : hasFieldSuffix fields [] = false := by
      simp [hasFieldSuffix, hmem]
    rw [List.nil_append, filterAux_copy sep fields red hm,
      filterAux_val sep hsep hfields red v w hv, hsuf]
    simp
  | cons c kd' ih =>
    intro v w hkd hv
    obtain ⟨hc, hkd'⟩ := goodStr_cons hkd
    have hsplit : matchAt sep fields ((c :: kd') ++ '=' :: (v ++ sep :: w)) =
        if (memF fields (c :: kd') && !v.isEmpty) = true
        then some (c :: kd', v, sep :: w) else none :=
      matchAt_seg sep hfields (c :: kd') v w hkd hv
    by_cases hcase : (memF fields (c :: kd') && !v.isEmpty) = true
    · rw [if_pos hcase] at hsplit
      rw [filterAux_match sep fields red hsplit]
      have hstep : filterAux sep fields red (sep :: w) =
          sep :: filterAux sep fields red w := by
        simpa using filterAux_val sep hsep hfields red [] w (by simp [goodStr])
      rw [hstep]
      have hsuf : (hasFieldSuffix fields (c :: kd') && !v.isEmpty) = true := by
        rw [Bool.and_eq_true] at hcase ⊢
        exact ⟨by simp [hasFieldSuffix, hcase.1], hcase.2⟩
      rw [if_pos hsuf]
    · rw [if_neg hcase] at hsplit
      rw [List.cons_append] at hsplit
      rw [List.cons_append, filterAux_copy sep fields red hsplit,
        ih v w hkd' hv]
      by_cases hsuf' : (hasFieldSuffix fields kd' && !v.isEmpty) = true
      · rw [if_pos hsuf']
        have : (hasFieldSuffix fields (c :: kd') && !v.isEmpty) = true := by
          rw [Bool.and_eq_true] at hsuf' ⊢
          refine ⟨?_, hsuf'.2⟩
          simp [hasFieldSuffix, hsuf'.1]
        rw [if_pos this]
        rfl
      · rw [if_neg hsuf']
        have : ¬(hasFieldSuffix fields (c :: kd') && !v.isEmpty) = true := by
          rw [Bool.and_eq_true] at hsuf' hcase ⊢
          rintro ⟨hs, hv2⟩
          simp only [hasFieldSuffix, Bool.or_eq_true] at hs
          rcases hs with hs | hs
          · exact hcase ⟨hs, hv2⟩
          · exact hsuf' ⟨hs, hv2⟩
        rw [if_neg this]
        rfl

/-- Master theorem for the redaction engine on well-formed messages: one
`re.sub` pass maps the rendering of `kvs` to the rendering of the
per-segment masking of `kvs`. -/
theorem filterAux_render (sep : Char) (hsep : sep ≠ '=')
    {fields : List (List Char)} (hwf : fieldsWF sep fields = true)
    (red : List Char) :
    ∀ kvs : List (List Char × List Char), kvsWF sep kvs = true →
      filterAux sep fields red (render sep kvs) =
        render sep (kvs.map (maskKV fields red)) := by
  rw [fieldsWF, Bool.and_eq_true] at hwf
  obtain ⟨hne, hfields⟩ := hwf
  intro kvs
  induction kvs with
  | nil =>
    intro _
    simpa [render] using filterAux_nil sep fields red
  | cons kv rest ih =>
    intro hkvs
    rw [kvsWF, List.all_cons, Bool.and_eq_true] at hkvs
    obtain ⟨hkv, hrest⟩ := hkvs
    rw [Bool.and_eq_true] at hkv
    have hrec := ih (by simpa [kvsWF] using hrest)
    rw [render, filterAux_seg sep hsep hne hfields red kv.1 kv.2
      (render sep rest) hkv.1 hkv.2, hrec]
    by_cases hmask : (hasFieldSuffix fields kv.1 && !kv.2.isEmpty) = true
    · rw [if_pos hmask]
      have : maskKV fields red kv = (kv.1, red) := by
        rw [maskKV, if_pos hmask]
      rw [List.map_cons, this, render]
    · rw [if_neg hmask]
      have : maskKV fields red kv = kv := by
        rw [maskKV, if_neg hmask]
      rw [List.map_cons, this, render]

/-! ## String-level interface to the master theorem -/

/-- View a string pair as a character-list pair. -/
def toD (kv : String × String) : List Char × List Char :=
  (kv.1.data, kv.2.data)

/-- Character lists of a list of field names. -/
def fieldsD (fields : List String) : List (List Char) :=
  fields.map String.data

/-- Render a list of string key/value pairs as a message. -/
def renderS (sep : Char) (kvs : List (String × String)) : String :=
  String.mk (render sep (kvs.map toD))

/-- String-level per-segment masking. -/
def maskKVS (fields : List String) (red : String) (kv : String × String) :
    String × String :=
  if (hasFieldSuffix (fieldsD fields) kv.1.data && !kv.2.data.isEmpty) = true
  then (kv.1, red) else kv

theorem toD_maskKVS (fields : List String) (red : String) (kv : String × String) :
    toD (maskKVS fields red kv) = maskKV (fieldsD fields) red.data (toD kv) := by
  obtain ⟨k, v⟩ := kv
  by_cases h : (hasFieldSuffix (fieldsD fields) k.data && !v.data.isEmpty) = true
  · simp [maskKVS, maskKV, toD, h]
  · simp [maskKVS, maskKV, toD, h]

/-- `filter_datum` on a well-formed rendered message masks exactly the
segments whose key ends in a field name and whose value is nonempty. -/
theorem filter_datum_render (fields : List String) (red : String) (sep : Char)
    (hsep : sep ≠ '=') (hwf : fieldsWF sep (fieldsD fields) = true)
    (kvs : List (String × String)) (hkvs : kvsWF sep (kvs.map toD) = true) :
    filter_datum fields red (renderS sep kvs) sep =
      renderS sep (kvs.map (maskKVS fields red)) := by
  have hne : fields.isEmpty = false := by
    rcases fields with _ | ⟨f, fs⟩
    · rw [fieldsWF] at hwf
      simp [fieldsD] at hwf
    · rfl
  have hmain := @filterAux_render sep hsep (fieldsD fields) hwf red.data
    (kvs.map toD) hkvs
  have hmaps : (kvs.map (maskKVS fields red)).map toD =
      (kvs.map toD).map (maskKV (fieldsD fields) red.data) := by
    rw [List.map_map, List.map_map]
    exact List.map_congr_left fun kv _ => toD_maskKVS fields red kv
  have hstep : filter_datum fields red (renderS sep kvs) sep =
      String.mk (filterAux sep (fieldsD fields) red.data (render sep (kvs.map toD))) := by
    unfold filter_datum
    rw [hne]
    rfl
  rw [hstep, hmain, renderS, hmaps]

/-! ## Claim C1 -/

/-- Counterexample to claim C1 as stated: the field `email` occurs in the
message `email=;` as the segment `email=` with the empty value, yet the
output does not contain `email=` followed by the mask: the value run of
the compiled pattern is `[^;]+`, which requires at least one character,
so the segment is left unchanged. -/
theorem c1_counterexample :
    filter_datum ["email"] "***" "email=;" ';' = "email=;" ∧
      filter_datum ["email"] "***" "email=;" ';' ≠ "email=***;" := by
  constructor
  · decide
  · decide

/-- Claim C1, amended: for every well-formed field set, mask, separator
and rendered message, and every field `f` of the set occurring in the
message as a segment `f=v` with a nonempty value `v`, the output is the
rendering in which that segment has become `f=<mask>` (same position,
value fully replaced); segments are masked exactly when the key ends in
a field name and the value is nonempty. -/
theorem c1_claim (fields : List String) (mask : String) (sep : Char)
    (kvs : List (String × String)) (f v : String)
    (hsep : sep ≠ '=') (hwf : fieldsWF sep (fieldsD fields) = true)
    (hkvs : kvsWF sep (kvs.map toD) = true)
    (hmem : (f, v) ∈ kvs) (hfF : f ∈ fields) (hv : v ≠ "") :
    filter_datum fields mask (renderS sep kvs) sep =
      renderS sep (kvs.map (maskKVS fields mask)) ∧
    maskKVS fields mask (f, v) = (f, mask) := by
  refine ⟨filter_datum_render fields mask sep hsep hwf kvs hkvs, ?_⟩
  have hsuffix : hasFieldSuffix (fieldsD fields) f.data = true := by
    have hfd : f.data ∈ fieldsD fields := List.mem_map_of_mem String.data hfF
    have hfne : f.data ≠ [] := by
      rw [fieldsWF, Bool.and_eq_true, List.all_eq_true] at hwf
      have := hwf.2 f.data hfd
      rw [Bool.and_eq_true] at this
      simpa [List.isEmpty_iff] using this.1
    have hmemf : memF (fieldsD fields) f.data = true := by
      simp only [memF, List.any_eq_true, decide_eq_true_eq]
      exact ⟨f.data, hfd, rfl⟩
    cases hfd2 : f.data with
    | nil => exact absurd hfd2 hfne
    | cons c k =>
      rw [hfd2] at hmemf
      simp [hasFieldSuffix, hmemf]
  have hvne : (!v.data.isEmpty) = true := by
    have : v.data ≠ [] := fun hcontra => hv (by
      cases v with
      | mk d => simp at hcontra; simp [hcontra])
    simpa [List.isEmpty_iff] using this
  rw [maskKVS]
  simp only [hsuffix, hvne, Bool.and_self, if_pos]

/-- Witness for C1: the specification's scenario 1. -/
theorem c1_witness :
    filter_datum ["email", "password"] "***"
        (renderS ';' [("name", "Bob"), ("email", "bob@x.com"), ("password", "hunter2")])
        ';' =
      renderS ';'
        ([("name", "Bob"), ("email", "bob@x.com"), ("password", "hunter2")].map
          (maskKVS ["email", "password"] "***")) ∧
    renderS ';' [("name", "Bob"), ("email", "bob@x.com"), ("password", "hunter2")] =
      "name=Bob;email=bob@x.com;password=hunter2;" ∧
    renderS ';'
        ([("name", "Bob"), ("email", "bob@x.com"), ("password", "hunter2")].map
          (maskKVS ["email", "password"] "***")) =
      "name=Bob;email=***;password=***;" := by
  refine ⟨?_, by decide, by decide⟩
  exact (c1_claim ["email", "password"] "***" ';'
    [("name", "Bob"), ("email", "bob@x.com"), ("password", "hunter2")]
    "email" "bob@x.com" (by decide) (by decide) (by decide)
    (by simp) (by simp) (by decide)).1

/-! ## Claim C3 -/

/-- Counterexample to claim C3 as stated: an occurrence of `ssn=` with an
empty value is not matched, because the value part of the compiled
pattern is `[^;]+`, which requires at least one character; the
specification's scenario 2 input is returned unchanged instead of
redacted. -/
theorem c3_counterexample :
    filter_datum ["ssn"] "***" "user=alice;ssn=;" ';' = "user=alice;ssn=;" ∧
      filter_datum ["ssn"] "***" "user=alice;ssn=;" ';' ≠ "user=alice;ssn=***;" := by
  constructor
  · decide
  · decide

/-- Claim C3, amended: an occurrence of `f=` with an empty value is never
matched by `filter_datum` (the value run of the pattern requires at
least one character), so such segments pass through unchanged; in
particular `filter_datum({ssn}, "***", "user=alice;ssn=;", ";")` returns
`"user=alice;ssn=;"` unchanged. -/
theorem c3_claim (fields : List String) (mask : String) (sep : Char)
    (kvs : List (String × String)) (f : String)
    (hsep : sep ≠ '=') (hwf : fieldsWF sep (fieldsD fields) = true)
    (hkvs : kvsWF sep (kvs.map toD) = true) (hmem : (f, "") ∈ kvs) :
    filter_datum fields mask (renderS sep kvs) sep =
      renderS sep (kvs.map (maskKVS fields mask)) ∧
    maskKVS fields mask (f, "") = (f, "") := by
  refine ⟨filter_datum_render fields mask sep hsep hwf kvs hkvs, ?_⟩
  rw [maskKVS]
  simp

/-- Witness for C3: the specification's scenario 2, where the amended
behaviour returns the message unchanged. -/
theorem c3_witness :
    filter_datum ["ssn"] "***" (renderS ';' [("user", "alice"), ("ssn", "")]) ';' =
      renderS ';' ([("user", "alice"), ("ssn", "")].map (maskKVS ["ssn"] "***")) ∧
    renderS ';' [("user", "alice"), ("ssn", "")] = "user=alice;ssn=;" ∧
    renderS ';' ([("user", "alice"), ("ssn", "")].map (maskKVS ["ssn"] "***")) =
      "user=alice;ssn=;" := by
  refine ⟨?_, by decide, by decide⟩
  exact (c3_claim ["ssn"] "***" ';' [("user", "alice"), ("ssn", "")] "ssn"
    (by decide) (by decide) (by decide) (by simp)).1

/-! ## Claim C4 -/

/-- Counterexample to claim C4 as stated: with field set `{email}`, the
segment `user_email=bob` has key `user_email`, which is not in the field
set, yet it is not byte-identical in the output: the alternation is not
anchored at a token boundary, so the field name `email` matches as a
suffix of the key and the value is masked. -/
theorem c4_counterexample :
    filter_datum ["email"] "***" "user_email=bob;" ';' = "user_email=***;" ∧
      filter_datum ["email"] "***" "user_email=bob;" ';' ≠ "user_email=bob;" := by
  constructor
  · decide
  · decide

/-- Claim C4, amended: a segment `g=v` whose key `g` does not have any
field of the set as a suffix appears byte-identical in the output (the
pattern is anchored only by the literal `=`, so a field name matches
within a key exactly when it is a suffix of it). -/
theorem c4_claim (fields : List String) (mask : String) (sep : Char)
    (kvs : List (String × String)) (g v : String)
    (hsep : sep ≠ '=') (hwf : fieldsWF sep (fieldsD fields) = true)
    (hkvs : kvsWF sep (kvs.map toD) = true) (hmem : (g, v) ∈ kvs)
    (hnosuf : hasFieldSuffix (fieldsD fields) g.data = false) :
    filter_datum fields mask (renderS sep kvs) sep =
      renderS sep (kvs.map (maskKVS fields mask)) ∧
    maskKVS fields mask (g, v) = (g, v) := by
  refine ⟨filter_datum_render fields mask sep hsep hwf kvs hkvs, ?_⟩
  rw [maskKVS]
  simp [hnosuf]

/-- Witness for C4: with field set `{email}`, a `name=Bob` segment passes
through byte-identically. -/
theorem c4_witness :
    filter_datum ["email"] "***" (renderS ';' [("name", "Bob"), ("email", "x")]) ';' =
      renderS ';' ([("name", "Bob"), ("email", "x")].map (maskKVS ["email"] "***")) ∧
    maskKVS ["email"] "***" ("name", "Bob") = ("name", "Bob") ∧
    renderS ';' ([("name", "Bob"), ("email", "x")].map (maskKVS ["email"] "***")) =
      "name=Bob;email=***;" := by
  have h := c4_claim ["email"] "***" ';' [("name", "Bob"), ("email", "x")]
    "name" "Bob" (by decide) (by decide) (by decide) (by simp) (by decide)
  exact ⟨h.1, h.2, by decide⟩

/-! ## Claim C6 -/

/-- Counterexample to claim C6 as stated: with the field set
`{a=***;b, a}` (field names are data and may contain any characters;
`re.escape` makes them match literally), one application to `a=v;b=c`
yields `a=***;b=c`, and a second application matches the field name
`a=***;b` — recreated by the first replacement — and yields
`a=***;b=***`, so `filter_datum` is not idempotent for every field set. -/
theorem c6_counterexample :
    filter_datum ["a=***;b", "a"] "***"
        (filter_datum ["a=***;b", "a"] "***" "a=v;b=c" ';') ';' ≠
      filter_datum ["a=***;b", "a"] "***" "a=v;b=c" ';' ∧
    filter_datum ["a=***;b", "a"] "***" "a=v;b=c" ';' = "a=***;b=c" ∧
    filter_datum ["a=***;b", "a"] "***"
        (filter_datum ["a=***;b", "a"] "***" "a=v;b=c" ';') ';' = "a=***;b=***" := by
  refine ⟨by decide, by decide, by decide⟩

theorem maskKVS_idem (fields : List String) (kv : String × String) :
    maskKVS fields "***" (maskKVS fields "***" kv) = maskKVS fields "***" kv := by
  obtain ⟨k, v⟩ := kv
  by_cases h : (hasFieldSuffix (fieldsD fields) k.data && !v.data.isEmpty) = true
  · have hinner : maskKVS fields "***" (k, v) = (k, "***") := by
      rw [maskKVS, if_pos h]
    rw [hinner]
    have houter : (hasFieldSuffix (fieldsD fields) k.data &&
        !("***" : String).data.isEmpty) = true := by
      rw [Bool.and_eq_true] at h ⊢
      exact ⟨h.1, by decide⟩
    rw [maskKVS, if_pos houter]
  · have hinner : maskKVS fields "***" (k, v) = (k, v) := by
      rw [maskKVS, if_neg h]
    rw [hinner, maskKVS, if_neg h]

theorem goodStr_mask {sep : Char} (hs : sep ≠ '*') :
    goodStr sep ("***" : String).data = true := by
  have hstar : goodChar sep '*' = true := by
    simp only [goodChar, Bool.and_eq_true, Bool.not_eq_true', decide_eq_false_iff_not]
    exact ⟨⟨fun h => hs h.symm, by decide⟩, by decide⟩
  show goodStr sep ['*', '*', '*'] = true
  simp [goodStr, hstar]

theorem kvsWF_mask (sep : Char) (hs : sep ≠ '*') (fields : List String)
    (kvs : List (String × String)) (hkvs : kvsWF sep (kvs.map toD) = true) :
    kvsWF sep ((kvs.map (maskKVS fields "***")).map toD) = true := by
  rw [kvsWF, List.all_eq_true] at hkvs ⊢
  intro x hx
  rw [List.map_map] at hx
  obtain ⟨kv, hkv, rfl⟩ := List.mem_map.mp hx
  have horig := hkvs (toD kv) (List.mem_map_of_mem toD hkv)
  rw [Bool.and_eq_true] at horig
  show (goodStr sep (toD (maskKVS fields "***" kv)).1 &&
    goodStr sep (toD (maskKVS fields "***" kv)).2) = true
  rw [toD_maskKVS, maskKV]
  by_cases h : (hasFieldSuffix (fieldsD fields) (toD kv).1 && !(toD kv).2.isEmpty) = true
  · rw [if_pos h, Bool.and_eq_true]
    exact ⟨horig.1, goodStr_mask hs⟩
  · rw [if_neg h, Bool.and_eq_true]
    exact horig

/-- Claim C6, amended: `filter_datum` with the mask `***` is idempotent on
every well-formed message, for every well-formed field set (nonempty
field names not containing the separator, `;` or `=`, and — as the
counterexample forces — not containing the mask character `*`, which is
guaranteed here by segment-safety together with `sep ≠ '*'` applied to
the masked rendering).  A second pass re-matches a masked segment
`f=***` but replaces its value `***` by `***` again, leaving the output
unchanged. -/
theorem c6_claim (fields : List String) (sep : Char) (kvs : List (String × String))
    (hsep : sep ≠ '=') (hsep2 : sep ≠ '*')
    (hwf : fieldsWF sep (fieldsD fields) = true)
    (hkvs : kvsWF sep (kvs.map toD) = true) :
    filter_datum fields "***"
        (filter_datum fields "***" (renderS sep kvs) sep) sep =
      filter_datum fields "***" (renderS sep kvs) sep := by
  rw [filter_datum_render fields "***" sep hsep hwf kvs hkvs]
  rw [filter_datum_render fields "***" sep hsep hwf (kvs.map (maskKVS fields "***"))
    (kvsWF_mask sep hsep2 fields kvs hkvs)]
  rw [List.map_map]
  have : (kvs.map (maskKVS fields "***" ∘ maskKVS fields "***")) =
      kvs.map (maskKVS fields "***") :=
    List.map_congr_left fun kv _ => maskKVS_idem fields kv
  rw [this]

/-- Witness for C6: idempotence on the scenario-1 style message. -/
theorem c6_witness :
    filter_datum ["email"] "***"
        (filter_datum ["email"] "***"
          (renderS ';' [("name", "Bob"), ("email", "b")]) ';') ';' =
      filter_datum ["email"] "***" (renderS ';' [("name", "Bob"), ("email", "b")]) ';' :=
  c6_claim ["email"] ';' [("name", "Bob"), ("email", "b")]
    (by decide) (by decide) (by decide) (by decide)

/-! ## Claim C9 -/

/-- Counterexample to claim C9 as stated: with the empty field set, no
field of the set matches in `a=b`, yet the message is changed: the
joined pattern degenerates to `()=[^;]+`, whose empty alternation
matches the empty string before `=`, so every value is replaced. -/
theorem c9_counterexample :
    filter_datum [] "***" "a=b" ';' = "a=***" ∧
      filter_datum [] "***" "a=b" ';' ≠ "a=b" := by
  refine ⟨by decide, by decide⟩

/-- Bool prefix test used to characterise a successful alternative. -/
def isPrefixB : List Char → List Char → Bool
  | [], _ => true
  | _ :: _, [] => false
  | a :: p, c :: s => decide (a = c) && isPrefixB p s

/-- Does `p` occur as a contiguous substring of the second argument? -/
def occursIn (p : List Char) : List Char → Bool
  | [] => p.isEmpty
  | c :: s => isPrefixB p (c :: s) || occursIn p s

theorem tryField_isPrefixB (sep : Char) :
    ∀ (f s : List Char) (r : List Char × List Char), tryField sep f s = some r →
      isPrefixB f s = true := by
  intro f
  induction f with
  | nil => intro s r _; rfl
  | cons a f ih =>
    intro s r h
    cases s with
    | nil => simp [tryField] at h
    | cons c t =>
      by_cases hac : a = c
      · simp only [tryField, hac, if_pos rfl] at h
        simp [isPrefixB, hac, ih t r h]
      · simp [tryField, hac] at h

theorem occursIn_of_isPrefixB {p s : List Char} (h : isPrefixB p s = true) :
    occursIn p s = true := by
  cases s with
  | nil =>
    cases p with
    | nil => rfl
    | cons a p' => simp [isPrefixB] at h
  | cons c t => simp [occursIn, h]

theorem occursIn_tail {p : List Char} {c : Char} {s : List Char}
    (h : occursIn p (c :: s) = false) : occursIn p s = false := by
  rcases hocc : occursIn p s with _ | _
  · rfl
  · rw [occursIn, hocc] at h
    simp at h

theorem matchAt_some_mem (sep : Char) :
    ∀ (fields : List (List Char)) (s f run rest : List Char),
      matchAt sep fields s = some (f, run, rest) →
        f ∈ fields ∧ tryField sep f s = some (run, rest) := by
  intro fields
  induction fields with
  | nil => intro s f run rest h; simp [matchAt] at h
  | cons g gs ih =>
    intro s f run rest h
    simp only [matchAt] at h
    cases htry : tryField sep g s with
    | some p =>
      rw [htry] at h
      cases h
      exact ⟨List.mem_cons_self g gs, htry⟩
    | none =>
      rw [htry] at h
      have := ih s f run rest h
      exact ⟨List.mem_cons_of_mem g this.1, this.2⟩

theorem filterAux_id (sep : Char) (fieldsData : List (List Char)) (red : List Char) :
    ∀ s : List Char, (∀ f ∈ fieldsData, occursIn f s = false) →
      filterAux sep fieldsData red s = s := by
  intro s
  induction s with
  | nil => intro _; exact filterAux_nil sep fieldsData red
  | cons c cs ih =>
    intro h
    have hm : matchAt sep fieldsData (c :: cs) = none := by
      cases hmat : matchAt sep fieldsData (c :: cs) with
      | none => rfl
      | some p =>
        obtain ⟨f, run, rest⟩ := p
        obtain ⟨hmem, htry⟩ := matchAt_some_mem sep fieldsData (c :: cs) f run rest hmat
        have hpre := tryField_isPrefixB sep f (c :: cs) (run, rest) htry
        have := occursIn_of_isPrefixB hpre
        rw [h f hmem] at this
        cases this
    rw [filterAux_copy sep fieldsData red hm]
    rw [ih fun f hf => occursIn_tail (h f hf)]

/-- Claim C9, amended: `filter_datum` is a total function (the embedding
raises nothing by construction), and for every NONEMPTY field set, if no
field name occurs as a substring of the message — in particular when
the message contains none of the field names — the message is returned
unchanged.  For the empty field set the degenerate pattern `()=[^;]+`
masks every value instead. -/
theorem c9_claim (fields : List String) (red msg : String) (sep : Char)
    (hne : fields ≠ [])
    (hocc : ∀ f ∈ fields, occursIn f.data msg.data = false) :
    filter_datum fields red msg sep = msg := by
  have hne2 : fields.isEmpty = false := by
    cases fields with
    | nil => exact absurd rfl hne
    | cons g gs => rfl
  have hid : filterAux sep (fieldsD fields) red.data msg.data = msg.data := by
    refine filterAux_id sep (fieldsD fields) red.data msg.data ?_
    intro fd hfd
    obtain ⟨f, hf, rfl⟩ := List.mem_map.mp hfd
    exact hocc f hf
  have hstep : filter_datum fields red msg sep =
      String.mk (filterAux sep (fieldsD fields) red.data msg.data) := by
    unfold filter_datum
    rw [hne2]
    rfl
  rw [hstep, hid]

/-- Witness for C9: a message containing no field name is unchanged. -/
theorem c9_witness :
    filter_datum ["email"] "***" "hello world" ';' = "hello world" :=
  c9_claim ["email"] "***" "hello world" ';' (by decide) (by decide)

/-! ## RedactingFormatter

Source (`filtered_logger.py`):

    class RedactingFormatter(logging.Formatter):
        REDACTION = "***"
        FORMAT = "[HOLBERTON] %(name)s %(levelname)s %(asctime)-15s: %(message)s"
        SEPARATOR = ";"
        def __init__(self, fields):
            super(RedactingFormatter, self).__init__(self.FORMAT)
            self.fields = fields
        def format(self, record):
            record.message = filter_datum(self.fields, self.REDACTION,
                                          record.getMessage(), self.SEPARATOR)
            return super(RedactingFormatter, self).format(record)

The parent class is the standard library `logging.Formatter`, whose
`format` method begins with `record.message = record.getMessage()` and
then renders the `%`-style template from the record's attributes, so the
assignment made by the subclass is overwritten before rendering. -/

/-- A `logging.LogRecord`: logger name, level name, formatted time, the
raw `msg`, and the `message` attribute that formatters assign. -/
structure LogRecord where
  name : String
  levelname : String
  asctime : String
  msg : String
  message : String

/-- `record.getMessage()` returns the raw `msg` (no `%` arguments are
passed anywhere in this module, so no interpolation happens). -/
def LogRecord.getMessage (r : LogRecord) : String := r.msg

def RedactingFormatter.REDACTION : String := "***"

def RedactingFormatter.FORMAT : String :=
  "[HOLBERTON] %(name)s %(levelname)s %(asctime)-15s: %(message)s"

/-- The class attribute `SEPARATOR = ";"`, embedded as the character. -/
def RedactingFormatter.SEPARATOR : Char := ';'

/-- The formatter state produced by `__init__`: the template passed to
the parent constructor and the stored field list. -/
structure FormatterState where
  fields : List String
  fmt : String

/-- `RedactingFormatter.__init__(fields)`: calls the parent constructor
with the fixed `FORMAT` template and stores `fields` verbatim; there is
no validation (empty lists are accepted) and no deduplication. -/
def RedactingFormatter.init (fields : List String) : FormatterState :=
  { fields := fields, fmt := RedactingFormatter.FORMAT }

/-- Left-justified minimum-width-15 padding of `%(asctime)-15s`. -/
def padMin15 (s : String) : String :=
  s ++ String.mk (List.replicate (15 - s.length) ' ')

/-- The template `[HOLBERTON] %(name)s %(levelname)s %(asctime)-15s:
%(message)s` rendered from a record's attributes. -/
def formatTemplate (r : LogRecord) : String :=
  "[HOLBERTON] " ++ r.name ++ " " ++ r.levelname ++ " " ++ padMin15 r.asctime ++
    ": " ++ r.message

/-- Modelled from the standard library collaborator
`logging.Formatter.format(record)`: it reassigns
`record.message = record.getMessage()` (overwriting whatever a subclass
stored there), computes `record.asctime` (kept abstract as the record's
existing `asctime` field), renders the template, and returns the
rendered line together with the mutated record. -/
def Formatter.formatBase (r : LogRecord) : String × LogRecord :=
  let r2 : LogRecord := { r with message := r.getMessage }
  (formatTemplate r2, r2)

/-- `RedactingFormatter.format(record)`: stores the redacted message in
`record.message`, then returns `super().format(record)`. -/
def RedactingFormatter.format (st : FormatterState) (r : LogRecord) :
    String × LogRecord :=
  let r1 : LogRecord := { r with
    message :=
      filter_datum st.fields RedactingFormatter.REDACTION r.getMessage
        RedactingFormatter.SEPARATOR }
  Formatter.formatBase r1

/-! ## Claim C2 -/

/-- Claim C2 evaluated at a failing input: formatting the record with raw
message `email=bob@x.com;` under fields `{email}` produces a line whose
payload is the raw, unredacted message — the parent `format` overwrites
`record.message` with `record.getMessage()` before rendering — even
though `filter_datum` applied to it yields `email=***;`.  The mask never
reaches the output. -/
theorem c2_claim :
    (RedactingFormatter.format (RedactingFormatter.init ["email"])
        { name := "user_data", levelname := "INFO",
          asctime := "2019-11-19 18:24:25,105",
          msg := "email=bob@x.com;", message := "" }).1 =
      "[HOLBERTON] user_data INFO 2019-11-19 18:24:25,105: email=bob@x.com;" ∧
    filter_datum ["email"] "***" "email=bob@x.com;" ';' = "email=***;" ∧
    occursIn ("***" : String).data
      ((RedactingFormatter.format (RedactingFormatter.init ["email"])
        { name := "user_data", levelname := "INFO",
          asctime := "2019-11-19 18:24:25,105",
          msg := "email=bob@x.com;", message := "" }).1).data = false := by
  refine ⟨by decide, by decide, by decide⟩

/-! ## Claim C5 -/

/-- Counterexample to claim C5 as stated: constructing the formatter with
an empty field set succeeds (the constructor performs no validation and
returns a state holding the empty list), and duplicate field names are
stored as given, not deduplicated. -/
theorem c5_counterexample :
    (RedactingFormatter.init []).fields = [] ∧
      (RedactingFormatter.init ["email", "email"]).fields = ["email", "email"] := by
  exact ⟨rfl, rfl⟩

/-- Claim C5, amended: construction never fails; `__init__` accepts any
field list — empty lists and duplicates included — stores it verbatim,
and fixes the formatting template at construction time. -/
theorem c5_claim (fields : List String) :
    (RedactingFormatter.init fields).fields = fields ∧
      (RedactingFormatter.init fields).fmt = RedactingFormatter.FORMAT := by
  exact ⟨rfl, rfl⟩

/-! ## Logger factory: `get_logger`

Source (`filtered_logger.py`): `get_logger` calls
`logging.getLogger("user_data")`, sets the level to INFO, disables
propagation, builds a `StreamHandler` with a `RedactingFormatter` over
`PII_FIELDS`, and calls `logger.addHandler(stream_handler)` —
unconditionally, with no check of the handlers already attached.  The
standard library keeps a process-wide name-to-logger registry, so
repeated calls mutate the same logger object; the registry is embedded
as an explicit association list. -/

/-- State of one logger in the registry: its level, propagation flag
and number of attached handlers.  A freshly created logger has level
NOTSET (0), propagate `true` and no handlers. -/
structure PyLogger where
  level : Nat
  propagate : Bool
  handlers : Nat
deriving DecidableEq

def freshLogger : PyLogger :=
  { level := 0, propagate := true, handlers := 0 }

def lookupLogger : List (String × PyLogger) → String → Option PyLogger
  | [], _ => none
  | (m, L) :: rest, n => if m = n then some L else lookupLogger rest n

def setLogger : List (String × PyLogger) → String → PyLogger → List (String × PyLogger)
  | [], n, L => [(n, L)]
  | (m, L0) :: rest, n, L =>
    if m = n then (n, L) :: rest else (m, L0) :: setLogger rest n L

/-- `logging.getLogger(name)`: return the registered logger, creating
and registering a fresh one when the name is unknown. -/
def getLoggerSt (env : List (String × PyLogger)) (n : String) :
    PyLogger × List (String × PyLogger) :=
  match lookupLogger env n with
  | some L => (L, env)
  | none => (freshLogger, setLogger env n freshLogger)

/-- Embedding of `get_logger()`: fetch the `user_data` logger, set its
level to INFO (20), disable propagation, and attach one more handler. -/
def get_logger (env : List (String × PyLogger)) : List (String × PyLogger) :=
  let p := getLoggerSt env "user_data"
  setLogger p.2 "user_data"
    { p.1 with level := 20, propagate := false, handlers := p.1.handlers + 1 }

def handlersOf (env : List (String × PyLogger)) (n : String) : Nat :=
  ((lookupLogger env n).map PyLogger.handlers).getD 0

/-- Number of copies of a record at severity `lvl` emitted through the
`user_data` logger: one per attached handler when the level passes
(after `get_logger`, propagation is disabled, so no ancestor emits). -/
def emitTimes (env : List (String × PyLogger)) (lvl : Nat) : Nat :=
  match lookupLogger env "user_data" with
  | some L => if L.level ≤ lvl then L.handlers else 0
  | none => 0

theorem lookupLogger_setLogger (env : List (String × PyLogger)) (n : String)
    (L : PyLogger) : lookupLogger (setLogger env n L) n = some L := by
  induction env with
  | nil => simp [setLogger, lookupLogger]
  | cons p rest ih =>
    obtain ⟨m, L0⟩ := p
    by_cases hm : m = n
    · simp [setLogger, hm, lookupLogger]
    · simp [setLogger, hm, lookupLogger, ih]

theorem handlersOf_get_logger (env : List (String × PyLogger)) :
    handlersOf (get_logger env) "user_data" = handlersOf env "user_data" + 1 := by
  cases hl : lookupLogger env "user_data" with
  | some L =>
    have hg : get_logger env = setLogger env "user_data"
        { L with level := 20, propagate := false, handlers := L.handlers + 1 } := by
      unfold get_logger getLoggerSt
      rw [hl]
    rw [hg, handlersOf, lookupLogger_setLogger, handlersOf, hl]
    rfl
  | none =>
    have hg : get_logger env =
        setLogger (setLogger env "user_data" freshLogger) "user_data"
          { freshLogger with
              level := 20
              propagate := false
              handlers := freshLogger.handlers + 1 } := by
      unfold get_logger getLoggerSt
      rw [hl]
    rw [hg, handlersOf, lookupLogger_setLogger, handlersOf, hl]
    rfl

/-! ## Claim C7 -/

/-- Counterexample to claim C7 as stated: two successive calls to
`get_logger` leave the `user_data` logger with two attached handlers,
not one — `addHandler` is called unconditionally on the registry-shared
logger — and an INFO record logged afterwards is emitted twice. -/
theorem c7_counterexample :
    handlersOf (get_logger (get_logger [])) "user_data" = 2 ∧
      handlersOf (get_logger (get_logger [])) "user_data" ≠ 1 ∧
      emitTimes (get_logger (get_logger [])) 20 = 2 := by
  refine ⟨by decide, by decide, by decide⟩

/-- Claim C7, amended: `get_logger` is not idempotent — every call
attaches one more handler to the process-wide `user_data` logger, so
after two successive calls the logger has two attached sinks and a
record logged at INFO afterwards is emitted twice, once per handler. -/
theorem c7_claim (env : List (String × PyLogger)) :
    handlersOf (get_logger env) "user_data" = handlersOf env "user_data" + 1 ∧
    handlersOf (get_logger (get_logger [])) "user_data" = 2 ∧
    emitTimes (get_logger (get_logger [])) 20 = 2 := by
  refine ⟨handlersOf_get_logger env, by decide, by decide⟩

/-! ## Row streamer: `main` and `get_db` -/

/-- One row of the `users` table in the column order used by `main`
(`row[0]` … `row[7]`). -/
structure Row where
  name : String
  email : String
  phone : String
  ssn : String
  password : String
  ip : String
  last_login : String
  user_agent : String

/-- The per-row message built by `main`:
`f'name={row[0]}; email={row[1]}; phone={row[2]}; ssn={row[3]};
password={row[4]}; ip={row[5]}; last_login={row[6]};
user_agent={row[7]};'`. -/
def rowMessage (r : Row) : String :=
  "name=" ++ r.name ++ "; email=" ++ r.email ++ "; phone=" ++ r.phone ++
    "; ssn=" ++ r.ssn ++ "; password=" ++ r.password ++ "; ip=" ++ r.ip ++
    "; last_login=" ++ r.last_login ++ "; user_agent=" ++ r.user_agent ++ ";"

inductive PyErr where
  | valueError : String → PyErr
  | mysqlError : String → PyErr
deriving DecidableEq

/-- Abstract behaviour of the external database collaborator: whether
`PERSONAL_DATA_DB_NAME` is set, whether connecting succeeds, whether the
query succeeds, and the rows returned on success. -/
structure DBEnv where
  dbName : Option String
  connectOk : Bool
  queryOk : Bool
  rows : List Row

/-- Embedding of `get_db()`: a `ValueError` is raised when the database
name is missing from the environment; on a connection `Error` the
`except` clause prints `Error: ...` and re-raises; otherwise the
connection is returned.  The second component records what was printed. -/
def get_db (env : DBEnv) : Except PyErr Unit × List String :=
  match env.dbName with
  | none => (Except.error (PyErr.valueError "Database name must be specified"), [])
  | some _ =>
    if env.connectOk then (Except.ok (), [])
    else (Except.error (PyErr.mysqlError "connection failed"),
      ["Error: connection failed"])

structure MainResult where
  outcome : Except PyErr Unit
  printed : List String
  connOpenAtEnd : Bool
  cursorOpenAtEnd : Bool
  logged : List String

/-- Embedding of `main()`: `get_db()` and `db.cursor()` run before the
`try` block, so a `get_db` failure propagates before any resource is
held by `main`; inside the `try`, a failing query raises `Error`, which
the `except` clause catches and prints — it does not re-raise — and the
`finally` clause closes the cursor and the connection on both paths
through the `try` block.  `logged` records the messages sent to
`logger.info`, one per fetched row. -/
def FilteredLogger.main (env : DBEnv) : MainResult :=
  match get_db env with
  | (Except.error e, pr) =>
    { outcome := Except.error e, printed := pr,
      connOpenAtEnd := false, cursorOpenAtEnd := false, logged := [] }
  | (Except.ok _, pr) =>
    if env.queryOk then
      { outcome := Except.ok (), printed := pr,
        connOpenAtEnd := false, cursorOpenAtEnd := false,
        logged := env.rows.map rowMessage }
    else
      { outcome := Except.ok (), printed := pr ++ ["Error: query failed"],
        connOpenAtEnd := false, cursorOpenAtEnd := false, logged := [] }

/-! ## Claim C8 -/

/-- A database environment in which the query fails. -/
def envQueryFail : DBEnv :=
  { dbName := some "db", connectOk := true, queryOk := false, rows := [] }

/-- A database environment in which connecting fails. -/
def envConnFail : DBEnv :=
  { dbName := some "db", connectOk := false, queryOk := true, rows := [] }

/-- Counterexample to claim C8 as stated: on a query failure `main`
returns normally -- the `except Error` clause prints the error and does
not re-raise -- so the error is not surfaced to the caller. -/
theorem c8_counterexample :
    (FilteredLogger.main envQueryFail).outcome = Except.ok () ∧
      (FilteredLogger.main envQueryFail).printed = ["Error: query failed"] := by
  exact ⟨rfl, rfl⟩

/-- Claim C8, amended: the cursor and connection are released on every
exit path of `main` and nothing is retried, but only a connection
failure (or a missing database name) is surfaced to the caller -- it
propagates before any resource is held by `main`; a query failure is
caught inside `main`, printed, and swallowed: `main` returns normally. -/
theorem c8_claim (env : DBEnv) :
    ((FilteredLogger.main env).connOpenAtEnd = false ∧
      (FilteredLogger.main env).cursorOpenAtEnd = false) ∧
    (env.dbName = none →
      (FilteredLogger.main env).outcome =
        Except.error (PyErr.valueError "Database name must be specified")) ∧
    (env.dbName ≠ none → env.connectOk = false →
      (FilteredLogger.main env).outcome =
          Except.error (PyErr.mysqlError "connection failed") ∧
        (FilteredLogger.main env).printed = ["Error: connection failed"]) ∧
    (env.dbName ≠ none → env.connectOk = true → env.queryOk = false →
      (FilteredLogger.main env).outcome = Except.ok () ∧
        (FilteredLogger.main env).printed = ["Error: query failed"]) ∧
    (env.dbName ≠ none → env.connectOk = true → env.queryOk = true →
      (FilteredLogger.main env).outcome = Except.ok () ∧
        (FilteredLogger.main env).logged = env.rows.map rowMessage) := by
  obtain ⟨dbName, connectOk, queryOk, rows⟩ := env
  cases dbName with
  | none => simp [FilteredLogger.main, get_db]
  | some nm =>
    cases connectOk with
    | false => simp [FilteredLogger.main, get_db]
    | true =>
      cases queryOk with
      | false => simp [FilteredLogger.main, get_db]
      | true => simp [FilteredLogger.main, get_db]

/-- Witness for C8: a connection failure is surfaced; a query failure is
swallowed after being printed, with all resources released. -/
theorem c8_witness :
    (FilteredLogger.main envConnFail).outcome =
      Except.error (PyErr.mysqlError "connection failed") ∧
    (FilteredLogger.main envQueryFail).outcome = Except.ok () ∧
    (FilteredLogger.main envQueryFail).connOpenAtEnd = false :=
  ⟨((c8_claim envConnFail).2.2.1 (by simp [envConnFail]) rfl).1,
   ((c8_claim envQueryFail).2.2.2.1 (by simp [envQueryFail]) rfl rfl).1,
   (c8_claim envQueryFail).1.1⟩

/-! ## Claim C10 -/

/-- `PII_FIELDS = ("email", "password", "ssn", "phone_number", "address")`. -/
def PII_FIELDS : List String := ["email", "password", "ssn", "phone_number", "address"]

/-- The row message seen as key/value segments of the Message grammar:
because the segments after the first are joined by `"; "`, every key
except `name` carries a leading space. -/
def rowKVs (r : Row) : List (String × String) :=
  [("name", r.name), (" email", r.email), (" phone", r.phone), (" ssn", r.ssn),
    (" password", r.password), (" ip", r.ip), (" last_login", r.last_login),
    (" user_agent", r.user_agent)]

set_option maxHeartbeats 1000000 in
theorem rowMessage_eq_renderS (r : Row) :
    rowMessage r = renderS ';' (rowKVs r) := by
  obtain ⟨n, e, p, s, pw, ip, ll, ua⟩ := r
  have l1 : ("name=" : String).data = 'n' :: 'a' :: 'm' :: 'e' :: '=' :: [] := rfl
  have l2 : ("; email=" : String).data =
    ';' :: ' ' :: 'e' :: 'm' :: 'a' :: 'i' :: 'l' :: '=' :: [] := rfl
  have l3 : ("; phone=" : String).data =
    ';' :: ' ' :: 'p' :: 'h' :: 'o' :: 'n' :: 'e' :: '=' :: [] := rfl
  have l4 : ("; ssn=" : String).data = ';' :: ' ' :: 's' :: 's' :: 'n' :: '=' :: [] := rfl
  have l5 : ("; password=" : String).data =
    ';' :: ' ' :: 'p' :: 'a' :: 's' :: 's' :: 'w' :: 'o' :: 'r' :: 'd' :: '=' :: [] := rfl
  have l6 : ("; ip=" : String).data = ';' :: ' ' :: 'i' :: 'p' :: '=' :: [] := rfl
  have l7 : ("; last_login=" : String).data =
    ';' :: ' ' :: 'l' :: 'a' :: 's' :: 't' :: '_' :: 'l' :: 'o' :: 'g' :: 'i' :: 'n' ::
      '=' :: [] := rfl
  have l8 : ("; user_agent=" : String).data =
    ';' :: ' ' :: 'u' :: 's' :: 'e' :: 'r' :: '_' :: 'a' :: 'g' :: 'e' :: 'n' :: 't' ::
      '=' :: [] := rfl
  have l9 : (";" : String).data = ';' :: [] := rfl
  have m1 : ("name" : String).data = 'n' :: 'a' :: 'm' :: 'e' :: [] := rfl
  have m2 : (" email" : String).data = ' ' :: 'e' :: 'm' :: 'a' :: 'i' :: 'l' :: [] := rfl
  have m3 : (" phone" : String).data = ' ' :: 'p' :: 'h' :: 'o' :: 'n' :: 'e' :: [] := rfl
  have m4 : (" ssn" : String).data = ' ' :: 's' :: 's' :: 'n' :: [] := rfl
  have m5 : (" password" : String).data =
    ' ' :: 'p' :: 'a' :: 's' :: 's' :: 'w' :: 'o' :: 'r' :: 'd' :: [] := rfl
  have m6 : (" ip" : String).data = ' ' :: 'i' :: 'p' :: [] := rfl
  have m7 : (" last_login" : String).data =
    ' ' :: 'l' :: 'a' :: 's' :: 't' :: '_' :: 'l' :: 'o' :: 'g' :: 'i' :: 'n' :: [] := rfl
  have m8 : (" user_agent" : String).data =
    ' ' :: 'u' :: 's' :: 'e' :: 'r' :: '_' :: 'a' :: 'g' :: 'e' :: 'n' :: 't' :: [] := rfl
  have h : (rowMessage ⟨n, e, p, s, pw, ip, ll, ua⟩).data =
      (renderS ';' (rowKVs ⟨n, e, p, s, pw, ip, ll, ua⟩)).data := by
    simp only [rowMessage, renderS, rowKVs, render, toD, List.map_cons, List.map_nil,
      String.data_append, l1, l2, l3, l4, l5, l6, l7, l8, l9,
      m1, m2, m3, m4, m5, m6, m7, m8, List.cons_append, List.nil_append,
      List.append_assoc]
  exact congrArg String.mk h

/-- Value of a segment after redaction: the mask when nonempty, else
unchanged. -/
def maskVal (v : String) : String :=
  if v.data.isEmpty = true then v else "***"

/-- The row with exactly the `email`, `ssn` and `password` columns
masked (the keys whose segment key ends in a `PII_FIELDS` name). -/
def maskRow (r : Row) : Row :=
  { r with
      email := maskVal r.email
      ssn := maskVal r.ssn
      password := maskVal r.password }

theorem maskKVS_pii_hit (k : String)
    (hk : hasFieldSuffix (fieldsD PII_FIELDS) k.data = true) (v : String) :
    maskKVS PII_FIELDS "***" (k, v) = (k, maskVal v) := by
  rw [maskKVS, maskVal]
  by_cases hv : v.data.isEmpty = true
  · have hcond : (hasFieldSuffix (fieldsD PII_FIELDS) k.data && !v.data.isEmpty) = false := by
      rw [hk, hv]
      rfl
    rw [hcond]
    simp [hv]
  · have hv2 : v.data.isEmpty = false := by
      simpa using hv
    have hcond : (hasFieldSuffix (fieldsD PII_FIELDS) k.data && !v.data.isEmpty) = true := by
      rw [hk, hv2]
      rfl
    rw [if_pos hcond]
    simp [hv2]

theorem maskKVS_pii_miss (k v : String)
    (hk : hasFieldSuffix (fieldsD PII_FIELDS) k.data = false) :
    maskKVS PII_FIELDS "***" (k, v) = (k, v) := by
  rw [maskKVS]
  have hcond : (hasFieldSuffix (fieldsD PII_FIELDS) k.data && !v.data.isEmpty) = false := by
    rw [hk]
    rfl
  rw [hcond]
  simp

theorem rowKVs_mask (r : Row) :
    (rowKVs r).map (maskKVS PII_FIELDS "***") = rowKVs (maskRow r) := by
  obtain ⟨n, e, p, s, pw, ip, ll, ua⟩ := r
  simp only [rowKVs, maskRow, List.map_cons, List.map_nil]
  rw [maskKVS_pii_miss "name" n (by decide),
    maskKVS_pii_hit " email" (by decide) e,
    maskKVS_pii_miss " phone" p (by decide),
    maskKVS_pii_hit " ssn" (by decide) s,
    maskKVS_pii_hit " password" (by decide) pw,
    maskKVS_pii_miss " ip" ip (by decide),
    maskKVS_pii_miss " last_login" ll (by decide),
    maskKVS_pii_miss " user_agent" ua (by decide)]

/-- A row whose column values are segment-safe strings. -/
def wfRow (r : Row) : Bool :=
  goodStr ';' r.name.data && goodStr ';' r.email.data && goodStr ';' r.phone.data &&
    goodStr ';' r.ssn.data && goodStr ';' r.password.data && goodStr ';' r.ip.data &&
    goodStr ';' r.last_login.data && goodStr ';' r.user_agent.data

theorem rowKVs_wf (r : Row) (h : wfRow r = true) :
    kvsWF ';' ((rowKVs r).map toD) = true := by
  obtain ⟨n, e, p, s, pw, ip, ll, ua⟩ := r
  simp only [wfRow, Bool.and_eq_true] at h
  obtain ⟨⟨⟨⟨⟨⟨⟨h1, h2⟩, h3⟩, h4⟩, h5⟩, h6⟩, h7⟩, h8⟩ := h
  have k1 : goodStr ';' ("name" : String).data = true := by decide
  have k2 : goodStr ';' (" email" : String).data = true := by decide
  have k3 : goodStr ';' (" phone" : String).data = true := by decide
  have k4 : goodStr ';' (" ssn" : String).data = true := by decide
  have k5 : goodStr ';' (" password" : String).data = true := by decide
  have k6 : goodStr ';' (" ip" : String).data = true := by decide
  have k7 : goodStr ';' (" last_login" : String).data = true := by decide
  have k8 : goodStr ';' (" user_agent" : String).data = true := by decide
  simp [kvsWF, rowKVs, toD, k1, k2, k3, k4, k5, k6, k7, k8,
    h1, h2, h3, h4, h5, h6, h7, h8]

/-- The record `main` hands to the formatter for one row (the timestamp
is abstract). -/
def mainRecord (r : Row) (a : String) : LogRecord :=
  { name := "user_data", levelname := "INFO", asctime := a, msg := rowMessage r, message := "" }

/-- Claim C10: `main` emits the phone column under the key `phone`,
while `PII_FIELDS` contains `phone_number` and not `phone`; hence even
under the redaction engine the phone value of every well-formed row is
left verbatim (as are `name`, `ip`, `last_login` and `user_agent`; only
`email`, `ssn` and `password` segments are masked), and the line the
formatter actually produces carries the whole row message verbatim. -/
theorem c10_claim :
    ("phone" ∉ PII_FIELDS ∧ "phone_number" ∈ PII_FIELDS) ∧
    (∀ r : Row, wfRow r = true →
      filter_datum PII_FIELDS "***" (rowMessage r) ';' = rowMessage (maskRow r)) ∧
    (∀ (r : Row) (a : String),
      (RedactingFormatter.format (RedactingFormatter.init PII_FIELDS)
          (mainRecord r a)).1 =
        "[HOLBERTON] " ++ "user_data" ++ " " ++ "INFO" ++ " " ++ padMin15 a ++
          ": " ++ rowMessage r) := by
  refine ⟨⟨by decide, by decide⟩, ?_, ?_⟩
  · intro r hr
    rw [rowMessage_eq_renderS r,
      filter_datum_render PII_FIELDS "***" ';' (by decide) (by decide) (rowKVs r)
        (rowKVs_wf r hr),
      rowKVs_mask r, ← rowMessage_eq_renderS (maskRow r)]
  · intro r a
    rfl

/-- A sample well-formed row. -/
def sampleRow : Row :=
  { name := "Bob", email := "bob@x.com", phone := "555-1234", ssn := "123", password := "hunter2", ip := "1.2.3.4", last_login := "2019-11-14", user_agent := "curl" }

/-- Witness for C10: on a concrete row, redaction masks email, ssn and
password but leaves the phone (and name, ip, last_login, user_agent)
verbatim. -/
theorem c10_witness :
    wfRow sampleRow = true ∧
    filter_datum PII_FIELDS "***" (rowMessage sampleRow) ';' =
      rowMessage (maskRow sampleRow) ∧
    rowMessage (maskRow sampleRow) =
      "name=Bob; email=***; phone=555-1234; ssn=***; password=***; ip=1.2.3.4; last_login=2019-11-14; user_agent=curl;" :=
  ⟨by decide, c10_claim.2.1 sampleRow (by decide), by decide⟩
